import Mathlib

/-!
Verification of the SwiftShip front-end (src/app.js): the pricing estimator
and the localStorage-backed supplies cart.

Numbers are modelled as exact rationals (`ℚ`): every numeric literal in the
source is a small decimal, and all arithmetic the claims mention stays exact
at these magnitudes.  Cart quantities are modelled as `Int` (the code only
ever adds integer deltas to them).  The localStorage slot keyed `"cart"` is
modelled as `Option String` (`none` = no value stored).  `JSON.parse` /
`JSON.stringify` are platform primitives; they are modelled by an executable
JSON grammar (`parseJson`) and a printer for the cart shape (`stringifyCart`)
below, and a thrown `SyntaxError` is modelled as `none`.
-/

/-- Catalog entry, from the `PRODUCTS` constant in src/app.js. -/
structure Product where
  id : String
  name : String
  price : ℚ
  descr : String
deriving DecidableEq, Repr

/-- One cart line, persisted as a JSON object with fields `id` and `qty`. -/
structure CartLine where
  id : String
  qty : Int
deriving DecidableEq, Repr

/-- The static product catalog (src/app.js lines 168-175). -/
def PRODUCTS : List Product :=
  [⟨"bx-s", "Shipping Box (Small)", 1.99, "25 x 20 x 15 cm, corrugated"⟩,
   ⟨"bx-m", "Shipping Box (Medium)", 2.99, "35 x 25 x 20 cm, corrugated"⟩,
   ⟨"bx-l", "Shipping Box (Large)", 4.49, "45 x 35 x 30 cm, corrugated"⟩,
   ⟨"tap", "Packing Tape", 2.49, "48mm x 50m, clear"⟩,
   ⟨"bub", "Bubble Wrap", 3.99, "30cm x 5m"⟩,
   ⟨"lbl", "Printed Labels (10x)", 1.49, "Thermal, adhesive"⟩]

/-- Zone base fee: `{ local:6, regional:12, national:22, international:48 }[zone] ?? 12`
(src/app.js line 131). -/
def zoneBase (zone : String) : ℚ :=
  if zone = "local" then 6
  else if zone = "regional" then 12
  else if zone = "national" then 22
  else if zone = "international" then 48
  else 12

/-- Per-kilogram rate: `{ local:1.2, regional:1.8, national:2.4, international:4.5 }[zone] ?? 1.8`
(src/app.js line 132). -/
def perKgRate (zone : String) : ℚ :=
  if zone = "local" then 1.2
  else if zone = "regional" then 1.8
  else if zone = "national" then 2.4
  else if zone = "international" then 4.5
  else 1.8

/-- Service multiplier: `{ express:1.35, standard:1.0, economy:0.85 }[service] ?? 1.0`
(src/app.js line 133). -/
def svcMult (service : String) : ℚ :=
  if service = "express" then 1.35
  else if service = "standard" then 1
  else if service = "economy" then 0.85
  else 1

/-- `Math.round(x * 100) / 100`: JS `Math.round` rounds half toward positive
infinity, i.e. `x ↦ ⌊x + 1/2⌋`. -/
def round2 (x : ℚ) : ℚ := (⌊x * 100 + 1 / 2⌋ : ℚ) / 100

/-- `estimatePrice(kg, zone, service)` (src/app.js lines 130-136):
`(zoneBase + perKg * Math.max(0.5, kg)) * svc`, then `Math.max(5, Math.round(price*100)/100)`. -/
def estimatePrice (kg : ℚ) (zone : String) (service : String) : ℚ :=
  max 5 (round2 ((zoneBase zone + perKgRate zone * max (1 / 2) kg) * svcMult service))

/-- `addToCart(id)` (src/app.js lines 197-202) on the parsed cart:
`cart.find(x => x.id === id)` returns the first matching line; if found its
quantity is incremented in place, otherwise `{ id, qty:1 }` is pushed at the end. -/
def addToCart (id : String) : List CartLine → List CartLine
  | [] => [⟨id, 1⟩]
  | l :: ls => if l.id = id then ⟨l.id, l.qty + 1⟩ :: ls else l :: addToCart id ls

/-- The per-line update in `changeQty` (src/app.js line 233):
`it.id===id ? {...it, qty: Math.max(0, it.qty + d)} : it`. -/
def bumpLine (id : String) (d : Int) (l : CartLine) : CartLine :=
  if l.id = id then ⟨l.id, max 0 (l.qty + d)⟩ else l

/-- `changeQty(id, d)` (src/app.js lines 232-235) on the parsed cart:
map the quantity update over every line, then `filter(it => it.qty > 0)`. -/
def changeQty (id : String) (d : Int) (cart : List CartLine) : List CartLine :=
  (cart.map (bumpLine id d)).filter (fun it => 0 < it.qty)

/-- Product lookup `PRODUCTS.find(x => x.id === id)`; `none` models JS `undefined`. -/
def findProduct (catalog : List Product) (id : String) : Option Product :=
  catalog.find? (fun x => x.id = id)

/-- One step of the cart total reduce in `renderCart` (src/app.js lines 224-226):
`(s, it) => { const p = PRODUCTS.find(x => x.id === it.id); return s + p.price * it.qty; }`.
When the lookup misses, `p` is `undefined` and `p.price` throws a `TypeError`;
the thrown state is modelled as `none` and absorbs the rest of the fold. -/
def totalStep (catalog : List Product) (acc : Option ℚ) (it : CartLine) : Option ℚ :=
  match acc with
  | none => none
  | some s =>
    match findProduct catalog it.id with
    | none => none
    | some p => some (s + p.price * it.qty)

/-- The cart total reduce in `renderCart` (src/app.js lines 224-226), with the
`PRODUCTS` constant generalised to a catalog parameter. -/
def computeTotal (cart : List CartLine) (catalog : List Product) : Option ℚ :=
  cart.foldl (totalStep catalog) (some 0)

/-- Spec-side total, from the spec's words: "sum over lines of
`catalog.lookup(line.productId).price * line.quantity`; a line whose productId
is absent from the catalog contributes nothing". -/
def specTotal (cart : List CartLine) (catalog : List Product) : ℚ :=
  (cart.map (fun l => ((findProduct catalog l.id).map Product.price).getD 0 * l.qty)).sum

/-- Carts reachable from the empty cart by the two mutating cart operations. -/
inductive Reachable : List CartLine → Prop
  | init : Reachable []
  | add (id : String) {c : List CartLine} : Reachable c → Reachable (addToCart id c)
  | change (id : String) (d : Int) {c : List CartLine} :
      Reachable c → Reachable (changeQty id d c)

/-! ## Helper lemmas about the cart operations -/

theorem changeQty_skips (id : String) (d : Int) :
    ∀ cart : List CartLine, (∀ l ∈ cart, l.id ≠ id ∧ 0 < l.qty) →
      changeQty id d cart = cart := by
  intro cart h
  induction cart with
  | nil => rfl
  | cons l ls ih =>
    have hl := h l (List.mem_cons_self l ls)
    have hls : ∀ x ∈ ls, x.id ≠ id ∧ 0 < x.qty := fun x hx => h x (List.mem_cons_of_mem l hx)
    have hrec := ih hls
    simp only [changeQty, List.map_cons, List.filter_cons, bumpLine, if_neg hl.1] at hrec ⊢
    simp [hl.2, hrec]

theorem addToCart_ids (id : String) :
    ∀ c : List CartLine, (addToCart id c).map CartLine.id =
      if id ∈ c.map CartLine.id then c.map CartLine.id
      else c.map CartLine.id ++ [id] := by
  intro c
  induction c with
  | nil => simp [addToCart]
  | cons l ls ih =>
    by_cases hid : l.id = id
    · simp [addToCart, hid]
    · have hne : ¬ id = l.id := fun h => hid h.symm
      by_cases hm : id ∈ ls.map CartLine.id
      · simp [addToCart, hid, hm, hne, ih]
      · simp [addToCart, hid, hm, hne, ih]

theorem addToCart_nodup (id : String) (c : List CartLine)
    (h : (c.map CartLine.id).Nodup) : ((addToCart id c).map CartLine.id).Nodup := by
  rw [addToCart_ids]
  by_cases hm : id ∈ c.map CartLine.id
  · simpa [hm]
  · simp [hm, List.nodup_append, h]

theorem addToCart_pos (id : String) :
    ∀ c : List CartLine, (∀ l ∈ c, 0 < l.qty) → ∀ l ∈ addToCart id c, 0 < l.qty := by
  intro c
  induction c with
  | nil =>
    intro _ l hl
    simp only [addToCart, List.mem_singleton] at hl
    simp [hl]
  | cons x xs ih =>
    intro h l hl
    by_cases hid : x.id = id
    · simp only [addToCart, if_pos hid, List.mem_cons] at hl
      rcases hl with h1 | h2
      · have := h x (List.mem_cons_self x xs)
        subst h1
        simp only
        omega
      · exact h l (List.mem_cons_of_mem x h2)
    · simp only [addToCart, if_neg hid, List.mem_cons] at hl
      rcases hl with h1 | h2
      · subst h1; exact h l (List.mem_cons_self l xs)
      · exact ih (fun y hy => h y (List.mem_cons_of_mem x hy)) l h2

theorem changeQty_ids_sublist (id : String) (d : Int) (c : List CartLine) :
    List.Sublist ((changeQty id d c).map CartLine.id) (c.map CartLine.id) := by
  unfold changeQty
  have h1 : List.Sublist ((c.map (bumpLine id d)).filter fun it => 0 < it.qty)
      (c.map (bumpLine id d)) := List.filter_sublist _
  have h2 := h1.map CartLine.id
  rw [List.map_map] at h2
  have heq : (CartLine.id ∘ bumpLine id d) = CartLine.id := by
    funext l
    by_cases hl : l.id = id <;> simp [bumpLine, hl]
  rwa [heq] at h2

theorem changeQty_pos (id : String) (d : Int) (c : List CartLine) :
    ∀ l ∈ changeQty id d c, 0 < l.qty := by
  intro l hl
  have := (List.mem_filter.mp hl).2
  exact of_decide_eq_true this

theorem foldl_totalStep_none (catalog : List Product) :
    ∀ cart : List CartLine, cart.foldl (totalStep catalog) none = none := by
  intro cart
  induction cart with
  | nil => rfl
  | cons l ls ih => simpa [totalStep] using ih

theorem foldl_totalStep_some (catalog : List Product) :
    ∀ (cart : List CartLine) (a : ℚ),
      (∀ l ∈ cart, (findProduct catalog l.id).isSome) →
      cart.foldl (totalStep catalog) (some a) = some (a + specTotal cart catalog) := by
  intro cart
  induction cart with
  | nil => intro a _; simp [specTotal]
  | cons l ls ih =>
    intro a h
    obtain ⟨p, hp⟩ := Option.isSome_iff_exists.mp (h l (List.mem_cons_self l ls))
    have hls : ∀ x ∈ ls, (findProduct catalog x.id).isSome :=
      fun x hx => h x (List.mem_cons_of_mem l hx)
    simp only [List.foldl_cons, totalStep, hp]
    rw [ih (a + p.price * l.qty) hls]
    simp only [specTotal, List.map_cons, List.sum_cons, hp]
    simp [specTotal, add_assoc]

theorem foldl_totalStep_missing (catalog : List Product) :
    ∀ (cart : List CartLine) (a : ℚ) (l : CartLine),
      l ∈ cart → findProduct catalog l.id = none →
      cart.foldl (totalStep catalog) (some a) = none := by
  intro cart
  induction cart with
  | nil => intro a l hl; simp at hl
  | cons x xs ih =>
    intro a l hl hmiss
    rcases List.mem_cons.mp hl with h1 | h2
    · subst h1
      simp only [List.foldl_cons, totalStep, hmiss]
      exact foldl_totalStep_none catalog xs
    · cases hfx : findProduct catalog x.id with
      | none =>
        simp only [List.foldl_cons, totalStep, hfx]
        exact foldl_totalStep_none catalog xs
      | some p =>
        simp only [List.foldl_cons, totalStep, hfx]
        exact ih (a + p.price * x.qty) l h2 hmiss

/-! ## Claim theorems: pricing and cart-level operations -/

/-- C4: for every weight at least 0 and every zone and service tier, known or
unknown, the pricing estimate is at least 5. -/
theorem estimate_floor (kg : ℚ) (_hkg : 0 ≤ kg) (zone service : String) :
    5 ≤ estimatePrice kg zone service := le_max_left _ _

theorem estimate_floor_witness :
    (0 : ℚ) ≤ 2 ∧ 5 ≤ estimatePrice 2 "nowhere" "warp" :=
  ⟨by norm_num, estimate_floor 2 (by norm_num) "nowhere" "warp"⟩

/-- C9: the estimate for weight 1, zone "local", service "standard" is exactly
7.20, the reference value (6 + 1.2 * 1) * 1.0 = 7.2, above the floor of 5. -/
theorem estimate_reference_value : estimatePrice 1 "local" "standard" = 7.20 := by
  have hmax : max (1 / 2 : ℚ) 1 = 1 := by norm_num
  simp only [estimatePrice, zoneBase, perKgRate, svcMult, round2, hmax,
    if_pos rfl, if_neg (by decide : ¬ ("local" : String) = "express"),
    if_neg (by decide : ¬ ("standard" : String) = "express"), if_pos rfl]
  norm_num

/-- C2, counterexample: a cart line whose productId is absent from the catalog
makes the total computation throw (`none`), instead of contributing nothing to
a defined sum as the claim states. -/
theorem computeTotal_unknown_raises :
    computeTotal [⟨"nope", 1⟩] PRODUCTS = none ∧
      computeTotal [⟨"nope", 1⟩] PRODUCTS ≠ some 0 := by
  constructor
  · decide
  · decide

/-- C2, amended: when every line's productId is present in the catalog the
total equals the sum over lines of the catalog price times the quantity; a
line whose productId is absent from the catalog makes the computation throw
(`none`) rather than contributing nothing. -/
theorem computeTotal_amended :
    (∀ (cart : List CartLine) (catalog : List Product),
        (∀ l ∈ cart, (findProduct catalog l.id).isSome) →
        computeTotal cart catalog = some (specTotal cart catalog)) ∧
    (∀ (cart : List CartLine) (catalog : List Product) (l : CartLine),
        l ∈ cart → findProduct catalog l.id = none →
        computeTotal cart catalog = none) := by
  constructor
  · intro cart catalog h
    unfold computeTotal
    rw [foldl_totalStep_some catalog cart 0 h, zero_add]
  · intro cart catalog l hl hmiss
    exact foldl_totalStep_missing catalog cart 0 l hl hmiss

theorem computeTotal_amended_witness :
    computeTotal [⟨"bx-s", 2⟩, ⟨"tap", 1⟩] PRODUCTS =
        some (specTotal [⟨"bx-s", 2⟩, ⟨"tap", 1⟩] PRODUCTS) ∧
      computeTotal [⟨"zz", 1⟩] PRODUCTS = none :=
  ⟨computeTotal_amended.1 [⟨"bx-s", 2⟩, ⟨"tap", 1⟩] PRODUCTS (by decide),
   computeTotal_amended.2 [⟨"zz", 1⟩] PRODUCTS ⟨"zz", 1⟩ (List.mem_singleton_self _)
     (by decide)⟩

/-- C5: adding a product that already has a cart line increments that line's
quantity in place and appends nothing; adding an absent product appends a new
line with quantity 1 at the end; and two adds on an empty cart give exactly
one line with quantity 2. -/
theorem addToCart_spec :
    (∀ (id : String) (pre post : List CartLine) (q : Int),
        (∀ l ∈ pre, l.id ≠ id) →
        addToCart id (pre ++ ⟨id, q⟩ :: post) = pre ++ ⟨id, q + 1⟩ :: post) ∧
    (∀ (id : String) (cart : List CartLine),
        (∀ l ∈ cart, l.id ≠ id) →
        addToCart id cart = cart ++ [⟨id, 1⟩]) ∧
    ∀ id : String, addToCart id (addToCart id []) = [⟨id, 2⟩] := by
  refine ⟨?_, ?_, ?_⟩
  · intro id pre post q hpre
    induction pre with
    | nil => simp [addToCart]
    | cons x xs ih =>
      have hx := hpre x (List.mem_cons_self x xs)
      have hxs : ∀ l ∈ xs, l.id ≠ id := fun l hl => hpre l (List.mem_cons_of_mem x hl)
      simp [addToCart, hx, ih hxs]
  · intro id cart habs
    induction cart with
    | nil => simp [addToCart]
    | cons x xs ih =>
      have hx := habs x (List.mem_cons_self x xs)
      have hxs : ∀ l ∈ xs, l.id ≠ id := fun l hl => habs l (List.mem_cons_of_mem x hl)
      simp [addToCart, hx, ih hxs]
  · intro id
    simp [addToCart]

theorem addToCart_spec_witness :
    addToCart "bx-s" [⟨"tap", 1⟩, ⟨"bx-s", 4⟩] = [⟨"tap", 1⟩, ⟨"bx-s", 5⟩] ∧
      addToCart "bub" [⟨"tap", 1⟩] = [⟨"tap", 1⟩, ⟨"bub", 1⟩] :=
  ⟨addToCart_spec.1 "bx-s" [⟨"tap", 1⟩] [] 4 (by decide),
   addToCart_spec.2.1 "bub" [⟨"tap", 1⟩] (by decide)⟩

/-- C6: changeQty adjusts the matching line's quantity by the delta, clamped
at a minimum of 0, and a line whose quantity reaches 0 is removed from the
sequence; in particular delta -1 on a line with quantity 1 removes the line. -/
theorem changeQty_spec :
    (∀ (id : String) (d : Int) (pre post : List CartLine) (q : Int),
        (∀ l ∈ pre, l.id ≠ id ∧ 0 < l.qty) →
        (∀ l ∈ post, l.id ≠ id ∧ 0 < l.qty) →
        changeQty id d (pre ++ ⟨id, q⟩ :: post) =
          if q + d ≤ 0 then pre ++ post else pre ++ ⟨id, q + d⟩ :: post) ∧
    changeQty "bx-s" (-1) [⟨"bx-s", 1⟩] = [] := by
  constructor
  · intro id d pre post q hpre hpost
    have hmid : changeQty id d (pre ++ ⟨id, q⟩ :: post) =
        changeQty id d pre ++
          ((bumpLine id d ⟨id, q⟩ :: post.map (bumpLine id d)).filter fun it => 0 < it.qty) := by
      simp [changeQty, List.map_append, List.filter_append]
    rw [hmid, changeQty_skips id d pre hpre]
    have hbump : bumpLine id d ⟨id, q⟩ = ⟨id, max 0 (q + d)⟩ := by simp [bumpLine]
    rw [hbump]
    have hkeepPost :
        (post.map (bumpLine id d)).filter (fun it => 0 < it.qty) = post :=
      changeQty_skips id d post hpost
    by_cases hqd : q + d ≤ 0
    · have hqty : ¬ (0 < max 0 (q + d)) := by omega
      rw [if_pos hqd, List.filter_cons]
      simp only [decide_eq_true_eq, hqty, if_false]
      rw [hkeepPost]
    · have hqty : 0 < max 0 (q + d) := by omega
      have hmaxeq : max 0 (q + d) = q + d := by omega
      rw [if_neg hqd, List.filter_cons]
      simp only [decide_eq_true_eq, hqty, if_true]
      rw [hkeepPost, hmaxeq]
  · decide

theorem changeQty_spec_witness :
    changeQty "tap" 2 [⟨"bub", 1⟩, ⟨"tap", 1⟩] = [⟨"bub", 1⟩, ⟨"tap", 3⟩] := by
  have h := changeQty_spec.1 "tap" 2 [⟨"bub", 1⟩] [] 1 (by decide) (by decide)
  simpa using h

/-- C10: on a cart whose line quantities are all positive and which has no
line for the given productId, changeQty is the identity, whatever the delta. -/
theorem changeQty_absent_id (id : String) (d : Int) (cart : List CartLine)
    (hpos : ∀ l ∈ cart, 0 < l.qty) (habs : ∀ l ∈ cart, l.id ≠ id) :
    changeQty id d cart = cart :=
  changeQty_skips id d cart (fun l hl => ⟨habs l hl, hpos l hl⟩)

theorem changeQty_absent_id_witness :
    changeQty "zz" (-7) [⟨"tap", 2⟩, ⟨"bub", 1⟩] = [⟨"tap", 2⟩, ⟨"bub", 1⟩] :=
  changeQty_absent_id "zz" (-7) [⟨"tap", 2⟩, ⟨"bub", 1⟩] (by decide) (by decide)

/-- C7: every cart reachable from the empty cart by addToCart and changeQty
operations has at most one line per productId and only positive quantities. -/
theorem reachable_cart_invariant :
    ∀ c : List CartLine, Reachable c →
      (c.map CartLine.id).Nodup ∧ ∀ l ∈ c, 0 < l.qty := by
  intro c h
  induction h with
  | init => exact ⟨List.nodup_nil, by simp⟩
  | add id _ ih => exact ⟨addToCart_nodup id _ ih.1, addToCart_pos id _ ih.2⟩
  | change id d _ ih =>
    exact ⟨(changeQty_ids_sublist id d _).nodup ih.1, changeQty_pos id d _⟩

theorem reachable_cart_invariant_witness :
    ((addToCart "bx-s" []).map CartLine.id).Nodup ∧
      ∀ l ∈ addToCart "bx-s" [], 0 < l.qty :=
  reachable_cart_invariant (addToCart "bx-s" []) (Reachable.add "bx-s" Reachable.init)

/-! ## JSON values, `JSON.parse` and `JSON.stringify`

The store handlers read and write the localStorage slot through
`JSON.parse(localStorage.getItem('cart') || '[]')` and
`localStorage.setItem('cart', JSON.stringify(items))` (src/app.js lines
195-196).  `JSON.parse` is modelled by an executable recursive-descent
parser over the JSON grammar (whitespace, objects, arrays, strings with
escapes, numbers, `true`/`false`/`null`); a failed parse models the thrown
`SyntaxError`.  The model's only deliberate divergence: a `\u` escape
denoting a lone UTF-16 surrogate is rejected, since Lean strings hold only
unicode scalar values.  `JSON.stringify` is modelled on the cart shape, the
only shape the program stringifies. -/

inductive Json where
  | null
  | bool (b : Bool)
  | num (q : ℚ)
  | str (s : String)
  | arr (elems : List Json)
  | obj (members : List (String × Json))

/-- JSON whitespace: space, tab, line feed, carriage return. -/
def isWsChar (c : Char) : Bool :=
  c = ' ' || c = '\t' || c = '\n' || c = '\r'

/-- Drop leading JSON whitespace. -/
def skipWs : List Char → List Char
  | [] => []
  | c :: cs => if isWsChar c then skipWs cs else c :: cs

/-- Decode a single-character JSON string escape (the character after the backslash). -/
def escDecode (c : Char) : Option Char :=
  if c = '"' then some '"'
  else if c = '\\' then some '\\'
  else if c = '/' then some '/'
  else if c = 'b' then some '\x08'
  else if c = 'f' then some '\x0c'
  else if c = 'n' then some '\n'
  else if c = 'r' then some '\r'
  else if c = 't' then some '\t'
  else none

/-- Value of one hexadecimal digit. -/
def hexVal (c : Char) : Option Nat :=
  if c.isDigit then some (c.toNat - 48)
  else if 'a' ≤ c ∧ c ≤ 'f' then some (c.toNat - 87)
  else if 'A' ≤ c ∧ c ≤ 'F' then some (c.toNat - 55)
  else none

/-- Parse the body of a JSON string, after the opening quote, up to and
including the closing quote; returns the decoded characters and the rest. -/
def parseStrChars : List Char → Option (List Char × List Char)
  | [] => none
  | c :: cs =>
    if c = '"' then some ([], cs)
    else if c = '\\' then
      match cs with
      | [] => none
      | e :: cs2 =>
        if e = 'u' then
          match cs2 with
          | h1 :: h2 :: h3 :: h4 :: cs3 =>
            match hexVal h1, hexVal h2, hexVal h3, hexVal h4 with
            | some a, some b, some c2, some d =>
              let n := ((a * 16 + b) * 16 + c2) * 16 + d
              if n < 0xd800 ∨ (0xdfff < n ∧ n < 0x110000) then
                (parseStrChars cs3).map (fun p => (Char.ofNat n :: p.1, p.2))
              else none
            | _, _, _, _ => none
          | _ => none
        else
          match escDecode e with
          | some dc => (parseStrChars cs2).map (fun p => (dc :: p.1, p.2))
          | none => none
    else if c.toNat < 0x20 then none
    else (parseStrChars cs).map (fun p => (c :: p.1, p.2))

/-- Take the maximal run of decimal digits. -/
def digSpan : List Char → (List Char × List Char)
  | [] => ([], [])
  | c :: cs =>
    if c.isDigit then ((digSpan cs).1.cons c, (digSpan cs).2) else ([], c :: cs)

/-- Value of a run of decimal digits, most significant first. -/
def digsToNat (l : List Char) : Nat := l.foldl (fun a c => a * 10 + (c.toNat - 48)) 0

/-- Optional fraction part of a JSON number: consumes `. digits` when the
input starts with a dot, returning the fraction digits' value and count;
otherwise consumes nothing. -/
def fracScan (l : List Char) : Option (Nat × Nat × List Char) :=
  match l with
  | [] => some (0, 0, [])
  | c :: r2 =>
    if c = '.' then
      match r2 with
      | [] => none
      | d :: _ =>
        if d.isDigit then
          some (digsToNat (digSpan r2).1, (digSpan r2).1.length, (digSpan r2).2)
        else none
    else some (0, 0, c :: r2)

/-- Optional exponent part of a JSON number: consumes `[eE] [+-]? digits`
when present; otherwise consumes nothing. -/
def expScan (l : List Char) : Option (Int × List Char) :=
  match l with
  | [] => some (0, [])
  | e :: r4 =>
    if e = 'e' ∨ e = 'E' then
      let sp2 : Bool × List Char :=
        match r4 with
        | s :: r5 =>
          if s = '+' then (false, r5)
          else if s = '-' then (true, r5)
          else (false, r4)
        | [] => (false, r4)
      match sp2.2 with
      | [] => none
      | d :: _ =>
        if d.isDigit then
          some (if sp2.1 then -(digsToNat (digSpan sp2.2).1 : Int)
                else (digsToNat (digSpan sp2.2).1 : Int), (digSpan sp2.2).2)
        else none
    else some (0, e :: r4)

/-- Parse a JSON number: `-? (0 | [1-9][0-9]*) (. [0-9]+)? ([eE] [+-]? [0-9]+)?`.
The numeric value is kept exact as a rational; when there is no fraction and
no exponent the value is the integer itself, cast. -/
def parseNumber (cs : List Char) : Option (ℚ × List Char) :=
  let sp : Bool × List Char :=
    match cs with
    | c :: r => if c = '-' then (true, r) else (false, cs)
    | [] => (false, cs)
  match sp.2 with
  | [] => none
  | c0 :: _ =>
    if c0.isDigit then
      let ip := digSpan sp.2
      if 2 ≤ ip.1.length ∧ c0 = '0' then none
      else
        match fracScan ip.2 with
        | none => none
        | some (fval, fcnt, r3) =>
          match expScan r3 with
          | none => none
          | some (ex10, rest) =>
            let mag : ℚ :=
              if fcnt = 0 ∧ ex10 = 0 then ((digsToNat ip.1 : ℤ) : ℚ)
              else ((digsToNat ip.1 : ℚ) + (fval : ℚ) / (10 : ℚ) ^ fcnt) * (10 : ℚ) ^ ex10
            some (if sp.1 then -mag else mag, rest)
    else none

mutual

/-- Parse one JSON value, returning it and the unconsumed tail.  `fuel`
bounds the recursion depth; `parseJson` supplies enough for any input. -/
def parseVal : Nat → List Char → Option (Json × List Char)
  | 0, _ => none
  | f + 1, cs =>
    match skipWs cs with
    | [] => none
    | c :: rest =>
      if c = '{' then
        match skipWs rest with
        | [] => parseMembers f [] []
        | c2 :: r2 =>
          if c2 = '}' then some (.obj [], r2) else parseMembers f (c2 :: r2) []
      else if c = '[' then
        match skipWs rest with
        | [] => parseElems f [] []
        | c2 :: r2 =>
          if c2 = ']' then some (.arr [], r2) else parseElems f (c2 :: r2) []
      else if c = '"' then
        (parseStrChars rest).map (fun p => (.str (String.mk p.1), p.2))
      else if c = 't' then
        match rest with
        | 'r' :: 'u' :: 'e' :: r2 => some (.bool true, r2)
        | _ => none
      else if c = 'f' then
        match rest with
        | 'a' :: 'l' :: 's' :: 'e' :: r2 => some (.bool false, r2)
        | _ => none
      else if c = 'n' then
        match rest with
        | 'u' :: 'l' :: 'l' :: r2 => some (.null, r2)
        | _ => none
      else
        (parseNumber (c :: rest)).map (fun p => (.num p.1, p.2))

/-- Parse the elements of a non-empty JSON array, after the opening bracket. -/
def parseElems : Nat → List Char → List Json → Option (Json × List Char)
  | 0, _, _ => none
  | f + 1, cs, acc =>
    match parseVal f cs with
    | none => none
    | some (v, r) =>
      match skipWs r with
      | [] => none
      | c2 :: r2 =>
        if c2 = ',' then parseElems f r2 (v :: acc)
        else if c2 = ']' then some (.arr (v :: acc).reverse, r2)
        else none

/-- Parse the members of a non-empty JSON object, after the opening brace. -/
def parseMembers : Nat → List Char → List (String × Json) → Option (Json × List Char)
  | 0, _, _ => none
  | f + 1, cs, acc =>
    match cs with
    | [] => none
    | c :: r =>
      if c = '"' then
        match parseStrChars r with
        | none => none
        | some (k, r2) =>
          match skipWs r2 with
          | [] => none
          | c3 :: r3 =>
            if c3 = ':' then
              match parseVal f r3 with
              | none => none
              | some (v, r4) =>
                match skipWs r4 with
                | [] => none
                | c4 :: r5 =>
                  if c4 = ',' then parseMembers f (skipWs r5) ((String.mk k, v) :: acc)
                  else if c4 = '}' then some (.obj ((String.mk k, v) :: acc).reverse, r5)
                  else none
            else none
      else none

end

/-- `JSON.parse`: parse a complete JSON text (one value, possibly surrounded
by whitespace); `none` models a thrown `SyntaxError`. -/
def parseJson (s : String) : Option Json :=
  match parseVal (2 * s.length + 2) s.data with
  | some (v, rest) => if skipWs rest = [] then some v else none
  | none => none

/-- JSON escaping of one character, as `JSON.stringify` emits it: quote and
backslash get two-character escapes, the named control escapes are used where
they exist, other control characters get a `\u00XX` escape, everything else
is emitted verbatim. -/
def escChar (c : Char) : List Char :=
  if c = '"' then ['\\', '"']
  else if c = '\\' then ['\\', '\\']
  else if c = '\x08' then ['\\', 'b']
  else if c = '\x0c' then ['\\', 'f']
  else if c = '\n' then ['\\', 'n']
  else if c = '\r' then ['\\', 'r']
  else if c = '\t' then ['\\', 't']
  else if c.toNat < 0x20 then
    ['\\', 'u', '0', '0', Nat.digitChar (c.toNat / 16), Nat.digitChar (c.toNat % 16)]
  else [c]

/-- JSON escaping of a character sequence. -/
def escapeChars (l : List Char) : List Char := (l.map escChar).flatten

/-- A JSON string literal for `s`: quote, escaped body, quote. -/
def quoteChars (s : String) : List Char := '"' :: (escapeChars s.data ++ ['"'])

/-- Decimal digits of `n`, most significant first (empty for 0); the fuel
argument only bounds the recursion and is in excess. -/
def natDecAux : Nat → Nat → List Char
  | 0, _ => []
  | f + 1, n => if n = 0 then [] else natDecAux f (n / 10) ++ [Nat.digitChar (n % 10)]

/-- Decimal rendering of a natural number, as JS number-to-string on integers. -/
def natDec (n : Nat) : List Char := if n = 0 then ['0'] else natDecAux (n + 1) n

/-- Decimal rendering of an integer. -/
def intDec (i : Int) : List Char :=
  if i < 0 then '-' :: natDec i.natAbs else natDec i.toNat

/-- `JSON.stringify` on one cart line object `{ id, qty }`: key order is the
object literal's insertion order (`id` first), no whitespace. -/
def lineChars (l : CartLine) : List Char :=
  '\x7b' :: (['"', 'i', 'd', '"', ':'] ++ quoteChars l.id ++
    ([',', '"', 'q', 't', 'y', '"', ':'] ++ (intDec l.qty ++ ['\x7d'])))

/-- Comma-joined renderings of the cart lines. -/
def joinLines : List CartLine → List Char
  | [] => []
  | [l] => lineChars l
  | l :: ls => lineChars l ++ ',' :: joinLines ls

/-- `JSON.stringify` on a cart array, character list form. -/
def cartChars (c : List CartLine) : List Char := '[' :: (joinLines c ++ [']'])

/-- `JSON.stringify(items)` for a cart, as written by `setCart` (src/app.js line 196). -/
def stringifyCart (c : List CartLine) : String := String.mk (cartChars c)

/-! ## The persisted cart slot -/

/-- `getCart()` (src/app.js line 195): `JSON.parse(localStorage.getItem('cart') || '[]')`.
The stored slot is `none` when no value is stored; `getItem` then yields JS
`null`, which `||` replaces with `'[]'` (an empty-string value, being falsy,
is replaced too).  The parse result is returned with no shape validation;
`none` models the `SyntaxError` that `JSON.parse` throws on malformed input,
propagating to the caller. -/
def getCart (st : Option String) : Option Json :=
  parseJson (match st with | none => "[]" | some s => if s = "" then "[]" else s)

/-- `setCart(items)` (src/app.js line 196): `localStorage.setItem('cart', JSON.stringify(items))`;
returns the new slot contents. -/
def setCart (c : List CartLine) : Option String := some (stringifyCart c)

/-- Reads one parsed JSON object back as a cart line: exactly the fields
`id` (a string) and `qty` (an integer number), in stringify order. -/
def asLine : Json → Option CartLine
  | .obj [(k1, .str s), (k2, .num q)] =>
    if k1 = "id" ∧ k2 = "qty" ∧ q.den = 1 then some ⟨s, q.num⟩ else none
  | _ => none

/-- Reads a list of parsed JSON values back as cart lines. -/
def decodeLines : List Json → Option (List CartLine)
  | [] => some []
  | j :: js =>
    match asLine j with
    | none => none
    | some l => (decodeLines js).map (fun ls => l :: ls)

/-- Reads a parsed JSON value back as a cart: an array of `{id, qty}` objects.
This is the spec's persisted-state layout ("value = JSON-encoded array of
`{id: string, qty: integer}` objects"). -/
def asCart : Json → Option (List CartLine)
  | .arr es => decodeLines es
  | _ => none

/-- The JSON value a cart line round-trips through. -/
def lineJson (l : CartLine) : Json :=
  Json.obj [("id", Json.str l.id), ("qty", Json.num (l.qty : ℚ))]

/-- The JSON value a cart round-trips through. -/
def cartJson (c : List CartLine) : Json := Json.arr (c.map lineJson)

/-- A valid cart per the spec's data model: every line's productId references
an existing product, quantities are positive integers, and there is at most
one line per productId. -/
def ValidCart (c : List CartLine) : Prop :=
  (∀ l ∈ c, (findProduct PRODUCTS l.id).isSome ∧ 0 < l.qty) ∧ (c.map CartLine.id).Nodup

/-- Outcome signalled by the checkout click handler: the success toast
("Order placed! ...") or the distinct "Your cart is empty." message. -/
inductive CheckoutResult where
  | placed
  | emptyCart
deriving DecidableEq, Repr

/-- The `#checkoutBtn` click handler (src/app.js lines 108-112):
`const items = getCart(); if (!items.length) { msg('cartMsg', 'Your cart is empty.'); return; }
setCart([]); renderCart(); msg('cartMsg', 'Order placed! ...')`.
Returns the new slot contents and the signalled outcome.  `none` covers a
`getCart` parse error (the exception propagates) and stored values that parse
to a non-array, which are outside the cart data model (there the handler
would apply JS truthiness to an `undefined` or string `length`). -/
def checkoutClick (st : Option String) : Option (Option String × CheckoutResult) :=
  match getCart st with
  | none => none
  | some (Json.arr []) => some (st, CheckoutResult.emptyCart)
  | some (Json.arr (_ :: _)) => some (setCart [], CheckoutResult.placed)
  | some _ => none

instance (c : List CartLine) : Decidable (ValidCart c) := by
  unfold ValidCart
  infer_instance


/-! ## Round-trip of the persisted cart encoding -/


/-- Characters that JSON string escaping leaves untouched. -/
def PlainChar (c : Char) : Prop := c ≠ '"' ∧ c ≠ '\\' ∧ 0x20 ≤ c.toNat

instance (c : Char) : Decidable (PlainChar c) := by
  unfold PlainChar
  infer_instance

theorem parseStrChars_close (rest : List Char) :
    parseStrChars ('"' :: rest) = some ([], rest) := by
  unfold parseStrChars
  simp

theorem parseStrChars_plain {l : List Char} (h : ∀ c ∈ l, PlainChar c) (rest : List Char) :
    parseStrChars (l ++ '"' :: rest) = some (l, rest) := by
  induction l with
  | nil => simpa using parseStrChars_close rest
  | cons c cs ih =>
    obtain ⟨h1, h2, h3⟩ := h c (List.mem_cons_self c cs)
    have e6 : ¬ c.toNat < 0x20 := by omega
    have hcs := ih (fun x hx => h x (List.mem_cons_of_mem c hx))
    rw [List.cons_append, parseStrChars.eq_def]
    simp [h1, h2, e6, hcs]

theorem escChar_plain {c : Char} (h : PlainChar c) : escChar c = [c] := by
  obtain ⟨h1, h2, h3⟩ := h
  have e1 : c ≠ '\x08' := fun he => by subst he; exact absurd h3 (by decide)
  have e2 : c ≠ '\x0c' := fun he => by subst he; exact absurd h3 (by decide)
  have e3 : c ≠ '\n' := fun he => by subst he; exact absurd h3 (by decide)
  have e4 : c ≠ '\r' := fun he => by subst he; exact absurd h3 (by decide)
  have e5 : c ≠ '\t' := fun he => by subst he; exact absurd h3 (by decide)
  have e6 : ¬ c.toNat < 0x20 := by omega
  simp [escChar, h1, h2, e1, e2, e3, e4, e5, e6]

theorem escapeChars_plain {l : List Char} (h : ∀ c ∈ l, PlainChar c) :
    escapeChars l = l := by
  induction l with
  | nil => rfl
  | cons c cs ih =>
    have hc := escChar_plain (h c (List.mem_cons_self c cs))
    have hcs := ih (fun x hx => h x (List.mem_cons_of_mem c hx))
    simp only [escapeChars, List.map_cons, List.flatten_cons, hc] at hcs ⊢
    simp [hcs]

theorem digitChar_isDigit {d : Nat} (h : d < 10) : (Nat.digitChar d).isDigit = true := by
  interval_cases d <;> decide

theorem digitChar_not_ws {d : Nat} (h : d < 10) : isWsChar (Nat.digitChar d) = false := by
  interval_cases d <;> decide

theorem digitChar_not_delims {d : Nat} (h : d < 10) :
    Nat.digitChar d ≠ '{' ∧ Nat.digitChar d ≠ '[' ∧ Nat.digitChar d ≠ '"' ∧
      Nat.digitChar d ≠ 't' ∧ Nat.digitChar d ≠ 'f' ∧ Nat.digitChar d ≠ 'n' ∧
      Nat.digitChar d ≠ '-' := by
  interval_cases d <;> decide

theorem digitChar_toNat48 {d : Nat} (h : d < 10) : (Nat.digitChar d).toNat - 48 = d := by
  interval_cases d <;> decide

theorem digitChar_ne_zero {d : Nat} (h1 : d ≠ 0) (h2 : d < 10) : Nat.digitChar d ≠ '0' := by
  interval_cases d
  · exact absurd rfl h1
  all_goals decide

theorem natDecAux_zero : ∀ f, natDecAux f 0 = [] := by
  intro f
  cases f with
  | zero => rfl
  | succ g => simp [natDecAux]

theorem natDecAux_mem : ∀ f n, ∀ c ∈ natDecAux f n, ∃ d, d < 10 ∧ c = Nat.digitChar d := by
  intro f
  induction f with
  | zero => intro n c hc; simp [natDecAux] at hc
  | succ g ih =>
    intro n c hc
    by_cases hn : n = 0
    · subst hn; rw [natDecAux_zero] at hc; simp at hc
    · rw [natDecAux, if_neg hn] at hc
      rcases List.mem_append.mp hc with h1 | h2
      · exact ih (n / 10) c h1
      · have : c = Nat.digitChar (n % 10) := by simpa using h2
        exact ⟨n % 10, Nat.mod_lt n (by omega), this⟩

theorem digsToNat_append_digit (xs : List Char) (d : Char) :
    digsToNat (xs ++ [d]) = 10 * digsToNat xs + (d.toNat - 48) := by
  simp [digsToNat, List.foldl_append]
  ring

theorem natDecAux_val : ∀ f n, n < 10 ^ f → digsToNat (natDecAux f n) = n := by
  intro f
  induction f with
  | zero => intro n hn; interval_cases n; rfl
  | succ g ih =>
    intro n hn
    by_cases h0 : n = 0
    · subst h0; rw [natDecAux_zero]; rfl
    · rw [natDecAux, if_neg h0, digsToNat_append_digit]
      have hdiv : n / 10 < 10 ^ g := by
        rw [Nat.div_lt_iff_lt_mul (by norm_num)]
        calc n < 10 ^ (g + 1) := hn
        _ = 10 ^ g * 10 := by ring
      rw [ih (n / 10) hdiv, digitChar_toNat48 (Nat.mod_lt n (by omega))]
      omega

theorem natDecAux_head : ∀ f n, n ≠ 0 → n < 10 ^ f →
    ∃ c cs, natDecAux f n = c :: cs ∧ c ≠ '0' := by
  intro f
  induction f with
  | zero => intro n h0 hn; omega
  | succ g ih =>
    intro n h0 hn
    rw [natDecAux, if_neg h0]
    by_cases hsmall : n / 10 = 0
    · rw [hsmall, natDecAux_zero]
      refine ⟨Nat.digitChar (n % 10), [], rfl, ?_⟩
      have hne : n % 10 ≠ 0 := by omega
      exact digitChar_ne_zero hne (Nat.mod_lt n (by omega))
    · have hdiv : n / 10 < 10 ^ g := by
        rw [Nat.div_lt_iff_lt_mul (by norm_num)]
        calc n < 10 ^ (g + 1) := hn
        _ = 10 ^ g * 10 := by ring
      obtain ⟨c, cs, hcs, hc0⟩ := ih (n / 10) hsmall hdiv
      exact ⟨c, cs ++ [Nat.digitChar (n % 10)], by rw [hcs]; rfl, hc0⟩

theorem lt_ten_pow (n : Nat) : n < 10 ^ (n + 1) := by
  calc n < 2 ^ n := Nat.lt_two_pow n
  _ ≤ 10 ^ n := Nat.pow_le_pow_left (by norm_num) n
  _ ≤ 10 ^ (n + 1) := Nat.pow_le_pow_right (by norm_num) (Nat.le_succ n)

theorem natDec_val (n : Nat) : digsToNat (natDec n) = n := by
  by_cases h0 : n = 0
  · subst h0; rfl
  · rw [natDec, if_neg h0]
    exact natDecAux_val (n + 1) n (lt_ten_pow n)

theorem natDec_mem (n : Nat) : ∀ c ∈ natDec n, ∃ d, d < 10 ∧ c = Nat.digitChar d := by
  by_cases h0 : n = 0
  · subst h0
    intro c hc
    simp only [natDec, if_pos rfl, List.mem_singleton] at hc
    exact ⟨0, by omega, by simpa using hc⟩
  · rw [natDec, if_neg h0]
    exact natDecAux_mem (n + 1) n

theorem natDec_head (n : Nat) :
    ∃ c cs, natDec n = c :: cs ∧ (c = '0' → natDec n = ['0']) := by
  by_cases h0 : n = 0
  · subst h0
    exact ⟨'0', [], rfl, fun _ => rfl⟩
  · obtain ⟨c, cs, hcs, hc0⟩ := natDecAux_head (n + 1) n h0 (lt_ten_pow n)
    rw [natDec, if_neg h0]
    exact ⟨c, cs, hcs, fun he => absurd he hc0⟩

/-- The next character, if any, is not a digit. -/
def nonDigitHead : List Char → Prop
  | [] => True
  | c :: _ => c.isDigit = false

/-- The next character, if any, cannot continue a JSON number. -/
def numStop : List Char → Prop
  | [] => True
  | c :: _ => c.isDigit = false ∧ c ≠ '.' ∧ c ≠ 'e' ∧ c ≠ 'E'

theorem numStop_nonDigit {l : List Char} (h : numStop l) : nonDigitHead l := by
  cases l with
  | nil => trivial
  | cons c r => exact h.1

theorem digSpan_all {l : List Char} (h : ∀ c ∈ l, c.isDigit = true)
    {rest : List Char} (hr : nonDigitHead rest) : digSpan (l ++ rest) = (l, rest) := by
  induction l with
  | nil =>
    cases rest with
    | nil => rfl
    | cons c r =>
      have hc : c.isDigit = false := hr
      simp only [List.nil_append]
      unfold digSpan
      simp [hc]
  | cons c cs ih =>
    have hc := h c (List.mem_cons_self c cs)
    have hcs := ih (fun x hx => h x (List.mem_cons_of_mem c hx))
    simp only [List.cons_append]
    unfold digSpan
    simp [hc, hcs]

theorem fracScan_stop {l : List Char} (h : numStop l) : fracScan l = some (0, 0, l) := by
  cases l with
  | nil => rfl
  | cons c r =>
    unfold fracScan
    simp [h.2.1]

theorem expScan_stop {l : List Char} (h : numStop l) : expScan l = some (0, l) := by
  cases l with
  | nil => rfl
  | cons c r =>
    unfold expScan
    simp [h.2.2.1, h.2.2.2]

theorem parseNumber_natDec (n : Nat) {rest : List Char} (hr : numStop rest) :
    parseNumber (natDec n ++ rest) = some (((n : ℤ) : ℚ), rest) := by
  obtain ⟨c0, tl, hshape, hzero⟩ := natDec_head n
  have hdigs : ∀ c ∈ natDec n, c.isDigit = true := by
    intro c hc
    obtain ⟨d, hd, rfl⟩ := natDec_mem n c hc
    exact digitChar_isDigit hd
  have hc0mem : c0 ∈ natDec n := by rw [hshape]; exact List.mem_cons_self c0 tl
  obtain ⟨d0, hd0, hc0d⟩ := natDec_mem n c0 hc0mem
  have hc0digit : c0.isDigit = true := hdigs c0 hc0mem
  have hc0dash : ¬ c0 = '-' := by rw [hc0d]; exact (digitChar_not_delims hd0).2.2.2.2.2.2
  have hspan : digSpan (natDec n ++ rest) = (natDec n, rest) :=
    digSpan_all hdigs (numStop_nonDigit hr)
  have hlead : ¬ (2 ≤ (natDec n).length ∧ c0 = '0') := by
    rintro ⟨hlen, hc⟩
    rw [hzero hc] at hlen
    simp at hlen
  have hcons : natDec n ++ rest = c0 :: (tl ++ rest) := by rw [hshape]; rfl
  rw [hcons] at hspan ⊢
  unfold parseNumber
  simp only [hc0dash, if_false, hspan, hc0digit, if_true, hlead, fracScan_stop hr,
    expScan_stop hr, natDec_val]
  simp [natDec_val]

theorem parseNumber_intDec {q : Int} (hq : 1 ≤ q) {rest : List Char} (hr : numStop rest) :
    parseNumber (intDec q ++ rest) = some ((q : ℚ), rest) := by
  have h1 : intDec q = natDec q.toNat := by rw [intDec, if_neg (by omega)]
  rw [h1, parseNumber_natDec q.toNat hr]
  rw [show ((q.toNat : ℤ) : ℚ) = (q : ℚ) from by rw [Int.toNat_of_nonneg (by omega)]]

theorem skipWs_cons {c : Char} (h : isWsChar c = false) (l : List Char) :
    skipWs (c :: l) = c :: l := by
  unfold skipWs
  simp [h]

theorem mk_data (s : String) : String.mk s.data = s := rfl

theorem parseVal_quote {s : String} (hplain : ∀ c ∈ s.data, PlainChar c)
    (f : Nat) (rest : List Char) :
    parseVal (f + 1) (quoteChars s ++ rest) = some (Json.str s, rest) := by
  have hcons : quoteChars s ++ rest = '"' :: (escapeChars s.data ++ ('"' :: rest)) := by
    simp [quoteChars]
  rw [hcons]
  unfold parseVal
  rw [skipWs_cons (by decide)]
  simp [escapeChars_plain hplain, parseStrChars_plain hplain, mk_data]

theorem parseVal_intDec {q : Int} (hq : 1 ≤ q) (f : Nat) {rest : List Char}
    (hr : numStop rest) :
    parseVal (f + 1) (intDec q ++ rest) = some (Json.num (q : ℚ), rest) := by
  have h1 : intDec q = natDec q.toNat := by rw [intDec, if_neg (by omega)]
  obtain ⟨c0, tl, hshape, _⟩ := natDec_head q.toNat
  obtain ⟨d0, hd0, hc0d⟩ := natDec_mem _ c0 (by rw [hshape]; exact List.mem_cons_self _ _)
  obtain ⟨hb1, hb2, hb3, hb4, hb5, hb6, _⟩ := digitChar_not_delims hd0
  have hnotws : isWsChar c0 = false := by rw [hc0d]; exact digitChar_not_ws hd0
  have hcons : intDec q ++ rest = c0 :: (tl ++ rest) := by rw [h1, hshape]; rfl
  have hnum := parseNumber_intDec hq hr
  rw [hcons] at hnum ⊢
  unfold parseVal
  rw [skipWs_cons hnotws]
  rw [hc0d] at hnum ⊢
  simp [hb1, hb2, hb3, hb4, hb5, hb6, hnum]

theorem parseMembers_line (l : CartLine) (hplain : ∀ c ∈ l.id.data, PlainChar c)
    (hq : 1 ≤ l.qty) (f : Nat) (rest : List Char) :
    parseMembers (f + 3)
      ('"' :: 'i' :: 'd' :: '"' :: ':' :: (quoteChars l.id ++
        (',' :: '"' :: 'q' :: 't' :: 'y' :: '"' :: ':' ::
          (intDec l.qty ++ ('\x7d' :: rest))))) [] = some (lineJson l, rest) := by
  have hstop : numStop ('\x7d' :: rest) := ⟨by decide, by decide, by decide, by decide⟩
  have hid : ∀ w : List Char, parseStrChars ('i' :: 'd' :: '"' :: w) = some (['i', 'd'], w) :=
    fun w => by simpa using parseStrChars_plain (l := ['i', 'd']) (by decide) w
  have hqty : ∀ w : List Char,
      parseStrChars ('q' :: 't' :: 'y' :: '"' :: w) = some (['q', 't', 'y'], w) :=
    fun w => by simpa using parseStrChars_plain (l := ['q', 't', 'y']) (by decide) w
  have hv1 : parseVal (f + 2) (quoteChars l.id ++ (',' :: '"' :: 'q' :: 't' :: 'y' :: '"' :: ':' ::
      (intDec l.qty ++ ('\x7d' :: rest)))) =
      some (Json.str l.id, ',' :: '"' :: 'q' :: 't' :: 'y' :: '"' :: ':' ::
        (intDec l.qty ++ ('\x7d' :: rest))) :=
    parseVal_quote hplain (f + 1) _
  have hv2 : parseVal (f + 1) (intDec l.qty ++ ('\x7d' :: rest)) =
      some (Json.num (l.qty : ℚ), '\x7d' :: rest) :=
    parseVal_intDec hq f hstop
  unfold parseMembers
  simp +decide only [hid, skipWs_cons, hv1]
  unfold parseMembers
  simp +decide only [hqty, skipWs_cons, hv2]
  simp +decide [lineJson]

theorem parseVal_lineChars (l : CartLine) (hplain : ∀ c ∈ l.id.data, PlainChar c)
    (hq : 1 ≤ l.qty) (f : Nat) (rest : List Char) :
    parseVal (f + 4) (lineChars l ++ rest) = some (lineJson l, rest) := by
  have hcons : lineChars l ++ rest =
      '\x7b' :: ('"' :: 'i' :: 'd' :: '"' :: ':' :: (quoteChars l.id ++
        (',' :: '"' :: 'q' :: 't' :: 'y' :: '"' :: ':' ::
          (intDec l.qty ++ ('\x7d' :: rest))))) := by
    simp [lineChars]
  rw [hcons]
  have hm := parseMembers_line l hplain hq f rest
  unfold parseVal
  rw [skipWs_cons (by decide)]
  simp +decide only [skipWs_cons, hm]
  simp

theorem parseElems_lines :
    ∀ (ls : List CartLine) (l : CartLine),
      (∀ x ∈ l :: ls, (∀ ch ∈ x.id.data, PlainChar ch) ∧ 1 ≤ x.qty) →
      ∀ F : Nat, (l :: ls).length + 4 ≤ F → ∀ (acc : List Json) (rest : List Char),
        parseElems F (joinLines (l :: ls) ++ (']' :: rest)) acc =
          some (Json.arr (acc.reverse ++ (l :: ls).map lineJson), rest) := by
  intro ls
  induction ls with
  | nil =>
    intro l h F hF acc rest
    obtain ⟨hpl, hql⟩ := h l (List.mem_cons_self l [])
    simp only [List.length_cons, List.length_nil] at hF
    obtain ⟨F1, rfl⟩ : ∃ F1, F = F1 + 1 := ⟨F - 1, by omega⟩
    obtain ⟨F2, rfl⟩ : ∃ F2, F1 = F2 + 4 := ⟨F1 - 4, by omega⟩
    have hline := parseVal_lineChars l hpl hql F2 (']' :: rest)
    have hjoin : joinLines [l] = lineChars l := by simp [joinLines]
    rw [hjoin]
    unfold parseElems
    simp +decide only [hline, skipWs_cons]
    simp
  | cons l2 ls2 ih =>
    intro l h F hF acc rest
    obtain ⟨hpl, hql⟩ := h l (List.mem_cons_self l _)
    have h2 : ∀ x ∈ l2 :: ls2, (∀ ch ∈ x.id.data, PlainChar ch) ∧ 1 ≤ x.qty :=
      fun x hx => h x (List.mem_cons_of_mem l hx)
    simp only [List.length_cons] at hF
    obtain ⟨F1, rfl⟩ : ∃ F1, F = F1 + 1 := ⟨F - 1, by omega⟩
    obtain ⟨F2, rfl⟩ : ∃ F2, F1 = F2 + 4 := ⟨F1 - 4, by omega⟩
    have hjoin : joinLines (l :: l2 :: ls2) =
        lineChars l ++ (',' :: joinLines (l2 :: ls2)) := by simp [joinLines]
    rw [hjoin]
    have hassoc : (lineChars l ++ (',' :: joinLines (l2 :: ls2))) ++ (']' :: rest) =
        lineChars l ++ (',' :: (joinLines (l2 :: ls2) ++ (']' :: rest))) := by
      simp [List.append_assoc]
    rw [hassoc]
    have hline := parseVal_lineChars l hpl hql F2
      (',' :: (joinLines (l2 :: ls2) ++ (']' :: rest)))
    have hrec := ih l2 h2 (F2 + 4)
      (by simp only [List.length_cons]; omega) (lineJson l :: acc) rest
    unfold parseElems
    simp +decide only [hline, skipWs_cons, hrec]
    simp

theorem joinLines_cons_head (l : CartLine) (ls : List CartLine) :
    ∃ t, joinLines (l :: ls) = '{' :: t := by
  cases ls with
  | nil =>
    refine ⟨'"' :: 'i' :: 'd' :: '"' :: ':' :: (quoteChars l.id ++
      (',' :: '"' :: 'q' :: 't' :: 'y' :: '"' :: ':' :: (intDec l.qty ++ ['}']))), ?_⟩
    simp [joinLines, lineChars]
  | cons l2 ls2 =>
    refine ⟨'"' :: 'i' :: 'd' :: '"' :: ':' :: (quoteChars l.id ++
      (',' :: '"' :: 'q' :: 't' :: 'y' :: '"' :: ':' ::
        (intDec l.qty ++ ('}' :: (',' :: joinLines (l2 :: ls2)))))), ?_⟩
    simp [joinLines, lineChars]

theorem parseVal_cartChars (c : List CartLine)
    (h : ∀ x ∈ c, (∀ ch ∈ x.id.data, PlainChar ch) ∧ 1 ≤ x.qty)
    (F : Nat) (hF : c.length + 5 ≤ F) (rest : List Char) :
    parseVal F (cartChars c ++ rest) = some (cartJson c, rest) := by
  obtain ⟨F1, rfl⟩ : ∃ F1, F = F1 + 1 := ⟨F - 1, by omega⟩
  cases c with
  | nil =>
    have hsh : cartChars [] ++ rest = '[' :: (']' :: rest) := by simp [cartChars, joinLines]
    rw [hsh]
    unfold parseVal
    rw [skipWs_cons (by decide)]
    simp +decide only [skipWs_cons]
    simp +decide [cartJson]
  | cons l ls =>
    simp only [List.length_cons] at hF
    have hsh : cartChars (l :: ls) ++ rest =
        '[' :: (joinLines (l :: ls) ++ (']' :: rest)) := by
      simp [cartChars]
    rw [hsh]
    have hE := parseElems_lines ls l h F1 (by simp only [List.length_cons]; omega) [] rest
    obtain ⟨t, ht⟩ := joinLines_cons_head l ls
    rw [ht] at hE ⊢
    rw [List.cons_append] at hE
    unfold parseVal
    rw [skipWs_cons (by decide)]
    simp +decide only [List.cons_append, skipWs_cons, hE]
    simp [cartJson]

theorem joinLines_length (c : List CartLine) : c.length ≤ (joinLines c).length := by
  induction c with
  | nil => simp [joinLines]
  | cons l ls ih =>
    cases ls with
    | nil => simp [joinLines, lineChars]
    | cons l2 ls2 =>
      have hjoin : joinLines (l :: l2 :: ls2) =
          lineChars l ++ (',' :: joinLines (l2 :: ls2)) := by simp [joinLines]
      rw [hjoin]
      simp only [List.length_append, List.length_cons, lineChars] at ih ⊢
      omega

theorem parseJson_stringifyCart (c : List CartLine)
    (h : ∀ x ∈ c, (∀ ch ∈ x.id.data, PlainChar ch) ∧ 1 ≤ x.qty) :
    parseJson (stringifyCart c) = some (cartJson c) := by
  have hlen : c.length + 5 ≤ 2 * (stringifyCart c).length + 2 := by
    have h1 : (stringifyCart c).length = (cartChars c).length := rfl
    have h2 : (cartChars c).length = (joinLines c).length + 2 := by
      simp [cartChars]
    have := joinLines_length c
    omega
  have hval := parseVal_cartChars c h (2 * (stringifyCart c).length + 2) hlen []
  rw [List.append_nil] at hval
  have hdata : (stringifyCart c).data = cartChars c := rfl
  unfold parseJson
  rw [hdata, hval]
  simp [skipWs]

theorem asLine_lineJson (l : CartLine) : asLine (lineJson l) = some l := by
  unfold asLine lineJson
  simp [Rat.den_intCast, Rat.num_intCast]

theorem decodeLines_map (c : List CartLine) : decodeLines (c.map lineJson) = some c := by
  induction c with
  | nil => rfl
  | cons l ls ih =>
    unfold decodeLines
    simp [asLine_lineJson, ih]

theorem asCart_cartJson (c : List CartLine) : asCart (cartJson c) = some c := by
  unfold asCart cartJson
  simp [decodeLines_map]

theorem valid_id_plain {i : String} (h : (findProduct PRODUCTS i).isSome) :
    ∀ c ∈ i.data, PlainChar c := by
  obtain ⟨p, hp⟩ := Option.isSome_iff_exists.mp h
  have hmem : p ∈ PRODUCTS := List.mem_of_find?_eq_some hp
  have hid : p.id = i := by simpa using List.find?_some hp
  rw [← hid]
  fin_cases hmem <;> decide

theorem valid_lines {c : List CartLine} (hv : ValidCart c) :
    ∀ x ∈ c, (∀ ch ∈ x.id.data, PlainChar ch) ∧ 1 ≤ x.qty := by
  intro x hx
  obtain ⟨hsome, hq⟩ := hv.1 x hx
  exact ⟨valid_id_plain hsome, hq⟩

theorem getCart_setCart (c : List CartLine) (hv : ValidCart c) :
    getCart (setCart c) = some (cartJson c) := by
  have hne : stringifyCart c ≠ "" := by
    have : (stringifyCart c).data = '[' :: (joinLines c ++ [']']) := rfl
    intro he
    rw [he] at this
    simp at this
  show parseJson (if stringifyCart c = "" then "[]" else stringifyCart c) = some (cartJson c)
  rw [if_neg hne]
  exact parseJson_stringifyCart c (valid_lines hv)

/-- C1, counterexample: the stored value "oops" fails to parse, and getCart
propagates the parse exception (`none`) instead of returning the empty
sequence as the claim states. -/
theorem getCart_corrupted_raises :
    parseJson "oops" = none ∧ getCart (some "oops") = none ∧
      getCart (some "oops") ≠ some (Json.arr []) :=
  ⟨rfl, rfl, fun h => Option.noConfusion h⟩

/-- C1, amended: getCart returns the empty sequence when no value is stored
(or the stored value is the empty string, which `||` treats like an absent
value), returns the parsed value when the stored value parses (in particular
the persisted cart when it parses as a cart), and propagates the parse
exception to the caller when a non-empty stored value fails to parse. -/
theorem getCart_amended :
    getCart none = some (Json.arr []) ∧
    (∀ (s : String) (c : List CartLine), s ≠ "" →
        (parseJson s).bind asCart = some c →
        (getCart (some s)).bind asCart = some c) ∧
    (∀ s : String, s ≠ "" → parseJson s = none → getCart (some s) = none) := by
  refine ⟨rfl, ?_, ?_⟩
  · intro s c hs hp
    show (parseJson (if s = "" then "[]" else s)).bind asCart = some c
    rw [if_neg hs]
    exact hp
  · intro s hs hp
    show parseJson (if s = "" then "[]" else s) = none
    rw [if_neg hs]
    exact hp

theorem getCart_amended_witness :
    (getCart (some (stringifyCart [⟨"bub", 2⟩]))).bind asCart = some [⟨"bub", 2⟩] ∧
      getCart (some "x!") = none :=
  ⟨getCart_amended.2.1 (stringifyCart [⟨"bub", 2⟩]) [⟨"bub", 2⟩] (by decide) rfl,
   getCart_amended.2.2 "x!" (by decide) rfl⟩

/-- C8: for every valid cart, writing it with setCart and reading it back
with getCart returns the same cart: the persisted encoding and its decoding
are inverses. -/
theorem cart_roundtrip (c : List CartLine) (hv : ValidCart c) :
    (getCart (setCart c)).bind asCart = some c := by
  rw [getCart_setCart c hv]
  simpa using asCart_cartJson c

theorem cart_roundtrip_witness :
    (getCart (setCart [⟨"bx-s", 2⟩, ⟨"tap", 1⟩])).bind asCart =
      some [⟨"bx-s", 2⟩, ⟨"tap", 1⟩] :=
  cart_roundtrip [⟨"bx-s", 2⟩, ⟨"tap", 1⟩] (by decide)

/-- C3: checkout on a non-empty cart sets the persisted cart to the empty
sequence and signals success; on an empty cart it signals the distinct
"nothing to check out" outcome and leaves the persisted state unchanged. -/
theorem checkout_spec :
    (∀ (st : Option String) (j : Json) (js : List Json),
        getCart st = some (Json.arr (j :: js)) →
        checkoutClick st = some (setCart [], CheckoutResult.placed) ∧
          (getCart (setCart [])).bind asCart = some []) ∧
    (∀ st : Option String, getCart st = some (Json.arr []) →
        checkoutClick st = some (st, CheckoutResult.emptyCart)) ∧
    CheckoutResult.placed ≠ CheckoutResult.emptyCart := by
  refine ⟨?_, ?_, by decide⟩
  · intro st j js h
    refine ⟨?_, rfl⟩
    unfold checkoutClick
    rw [h]
  · intro st h
    unfold checkoutClick
    rw [h]

theorem checkout_spec_witness :
    checkoutClick (setCart [⟨"tap", 1⟩]) = some (setCart [], CheckoutResult.placed) ∧
      checkoutClick (some "[]") = some (some "[]", CheckoutResult.emptyCart) :=
  ⟨(checkout_spec.1 (setCart [⟨"tap", 1⟩]) (lineJson ⟨"tap", 1⟩) [] rfl).1,
   checkout_spec.2.1 (some "[]") rfl⟩
